import Mathlib

/-!
Shallow embedding of `src/example/pegtl/abnf2pegtl2.cpp`, the ABNF-to-PEGTL
compiler: the parse-tree node model, the rule-name registries, the
incremental-alternation merge performed by `node::emplace_back`, and the
code generator `to_string`, together with theorems settling the claims
about this program.
-/

namespace Abnf2Pegtl

/-- ASCII lower-casing of one character, as C `tolower` in the "C" locale
(used by `strcasecmp`). -/
def lowerChar (c : Char) : Char :=
  if 'A' ≤ c ∧ c ≤ 'Z' then Char.ofNat (c.toNat + 32) else c

/-- Model of `strcasecmp(a, b) == 0`: equality after ASCII lower-casing. -/
def strcaseEq (a b : String) : Bool :=
  a.toList.map lowerChar = b.toList.map lowerChar

/-- Model of `std::replace(v.begin(), v.end(), '-', '_')`. -/
def replaceDashes (s : String) : String :=
  String.mk (s.toList.map (fun c => if c = '-' then '_' else c))

/-- C `isalpha` in the "C" locale, restricted to ASCII letters. -/
def isAlphaC (c : Char) : Bool :=
  ('a' ≤ c ∧ c ≤ 'z') ∨ ('A' ≤ c ∧ c ≤ 'Z')

/-- Model of `remove_leading_zeroes` (on the character list of the string):
drop the longest prefix of `'0'` characters; an all-zero string becomes
empty. -/
def removeLeadingZeroes (l : List Char) : List Char :=
  l.dropWhile (fun c => c = '0')

/-- Does the character list contain two consecutive underscores?  Models
`v.find( "__" ) != std::string::npos`. -/
def hasDoubleUnderscore : List Char → Bool
  | [] => false
  | [_] => false
  | a :: b :: rest => (a = '_' ∧ b = '_') ∨ hasDoubleUnderscore (b :: rest)

/-- The reserved-word set `keywords` of the program, verbatim. -/
def keywords : List String :=
  [ "alignas", "alignof", "and", "and_eq",
    "asm", "auto", "bitand", "bitor",
    "bool", "break", "case", "catch",
    "char", "char16_t", "char32_t", "class",
    "compl", "const", "constexpr", "const_cast",
    "continue", "decltype", "default", "delete",
    "do", "double", "dynamic_cast", "else",
    "enum", "explicit", "export", "extern",
    "false", "float", "for", "friend",
    "goto", "if", "inline", "int",
    "long", "mutable", "namespace", "new",
    "noexcept", "not", "not_eq", "nullptr",
    "operator", "or", "or_eq", "private",
    "protected", "public", "register", "reinterpret_cast",
    "return", "short", "signed", "sizeof",
    "static", "static_assert", "static_cast", "struct",
    "switch", "template", "this", "thread_local",
    "throw", "true", "try", "typedef",
    "typeid", "typename", "union", "unsigned",
    "using", "virtual", "void", "volatile",
    "wchar_t", "while", "xor", "xor_eq" ]

/-- Value of a decimal digit string, as `strtoull(s, nullptr, 10)` for
in-range inputs (the program only applies it to nonempty digit strings). -/
def natOfDigits (l : List Char) : Nat :=
  l.foldl (fun a c => 10 * a + (c.toNat - '0'.toNat)) 0

/-- Value of a binary digit string, as `strtoull(s, nullptr, 2)` for
in-range inputs (the program only applies it to nonempty `BIT` strings). -/
def natOfBits (l : List Char) : Nat :=
  l.foldl (fun a c => 2 * a + (c.toNat - '0'.toNat)) 0

/-- The single-quote character, used when rendering character lists. -/
def sq : Char := Char.ofNat 39

/-- Model of `append_char`: append `, ` if the accumulator is nonempty, then
the single-quoted character, escaping backslash and quote.  The C++ function
also returns whether the character is alphabetic; no caller uses that
value, so the model keeps only the string. -/
def appendChar (s : String) (c : Char) : String :=
  let s1 := if s.isEmpty then s else s ++ ", "
  let s2 := s1.push sq
  let s3 := if c = sq ∨ c = '\\' then s2.push '\\' else s2
  (s3.push c).push sq

/-- Render a string as the comma-separated quoted character list used inside
`one< ... >`, `string< ... >` and `istring< ... >`. -/
def renderChars (content : String) : String :=
  content.toList.foldl appendChar ""

/-- The namespace text prepended to every emitted combinator; models the
C++ string variable holding `tao::pegtl::`. -/
def tp : String := "tao::pegtl::"

/-- A raised `std::runtime_error`, split into the source position prepended
by the program (`to_string(n->begin()) + ": " + ...`, modelled as a byte
offset) and the message text after it. -/
structure Err where
  pos : Nat
  msg : String
  deriving DecidableEq, Repr

/-- The mutable registries of the program: `rules` (canonical first-seen
spellings, pushed by `get_rulename`) and the sequence of forward
declarations printed so far (`std::cout << "struct " << v << ";\n"`),
recorded by name. -/
structure GState where
  rules : List String
  out : List String
  deriving DecidableEq, Repr

/-- Model of `find_rule( r, v )`: scan the vector from the back
(`rbegin()` to `rend()`) for a `strcasecmp`-equal entry and return it. -/
def findRule (rs : List String) (v : String) : Option String :=
  rs.reverse.find? (fun p => strcaseEq p v)

/-- Model of the one-argument `get_rulename( n )` applied to a rulename
node's content: replace every `-` with `_`. -/
def getRulenameRaw (content : String) : String :=
  replaceDashes content

/-- Model of the two-argument `get_rulename( n, print_forward_declarations )`:
normalize, look the name up case-insensitively among the already-seen
spellings, returning the stored spelling when found; otherwise reject
reserved names (exact keyword lookup via `keywords.count`, or a double
underscore), optionally record a forward declaration, then register and
return the normalized spelling. -/
def GState.getRulename (st : GState) (rulesDefined : List String)
    (content : String) (pos : Nat) (pfd : Bool) :
    Except Err (String × GState) :=
  let v := getRulenameRaw content
  match findRule st.rules v with
  | some p => .ok (p, st)
  | none =>
    if keywords.contains v || hasDoubleUnderscore v.toList then
      .error ⟨pos, "\x27" ++ v ++ "\x27 is a reserved rulename"⟩
    else
      let out2 := if pfd && (findRule rulesDefined v).isSome
                  then st.out ++ [v] else st.out
      .ok (v, { rules := st.rules ++ [v], out := out2 })

/-- The node kinds a parse-tree node can carry after the selector/transform
stage: the selected grammar rules plus the three retag ids `one_tag`,
`string_tag` and `istring_tag`. -/
inductive NKind where
  | rulename
  | oneTag
  | stringTag
  | istringTag
  | proseVal
  | hexValue
  | decValue
  | binValue
  | hexRange
  | decRange
  | binRange
  | hexType
  | decType
  | binType
  | alternation
  | option
  | group
  | repeatCount
  | repetition
  | andPredicate
  | notPredicate
  | concatenation
  | definedAsOp
  | rule
  deriving DecidableEq, Repr

/-- A parse-tree node (`parse_tree::basic_node`): discriminating id `kind`,
the source slice `content` covered by the node's span, the span boundaries
`b` and `e` (modelled as byte offsets), and the ordered children.  In the
program `content` is derived from the span; here it is stored, and kept in
step wherever the program uses it. -/
inductive Node where
  | mk (kind : NKind) (content : String) (b e : Nat) (children : List Node)
  deriving Repr

instance : Inhabited Node := ⟨.mk .rulename "" 0 0 []⟩

def Node.kind : Node → NKind
  | .mk k _ _ _ _ => k

def Node.content : Node → String
  | .mk _ c _ _ _ => c

def Node.b : Node → Nat
  | .mk _ _ b _ _ => b

def Node.e : Node → Nat
  | .mk _ _ _ e _ => e

def Node.children : Node → List Node
  | .mk _ _ _ _ cs => cs

/-- Model of `n->front()`. -/
def Node.front (n : Node) : Node := n.children.headD default

/-- Model of `n->back()`. -/
def Node.back (n : Node) : Node := n.children.getLastD default

/-- Model of `n->at( i )`. -/
def Node.atIdx (n : Node) (i : Nat) : Node := n.children.getD i default

/-- The rule name of a rulelist entry: `get_rulename( n->front() )`, the
one-argument overload that only replaces dashes. -/
def ruleNameOf (r : Node) : String := getRulenameRaw r.front.content

/-- Model of the `node::emplace_back` override, applied to the rulelist (the
root's child list `rs`) and a newly parsed child.  A non-`rule` child is
appended unchanged.  For a `rule` child: `=` rejects a case-insensitive
duplicate; `=/` locates the first matching earlier rule, wraps its assignee
in a synthesized alternation when necessary, appends the new alternatives,
then erases the earlier entry and lets the merged rule be appended at the
end by the forwarded base `emplace_back`. -/
def emplaceRule (rs : List Node) (child : Node) : Except Err (List Node) :=
  if child.kind = .rule then
    let rname := getRulenameRaw child.front.content
    let op := (child.atIdx 1).content
    if op = "=" then
      if rs.any (fun n => strcaseEq rname (ruleNameOf n)) then
        .error ⟨child.b, "rule \x27" ++ rname ++ "\x27 is already defined"⟩
      else
        .ok (rs ++ [child])
    else if op = "=/" then
      match rs.findIdx? (fun n => strcaseEq rname (ruleNameOf n)) with
      | some i =>
        let prev := rs.getD i default
        let oldAssignee := prev.back
        -- wrap a non-alternation assignee into a synthesized alternation
        -- node carrying the assignee's span
        let alt : Node :=
          if oldAssignee.kind = .alternation then oldAssignee
          else .mk .alternation oldAssignee.content oldAssignee.b
                 oldAssignee.e [oldAssignee]
        let newAssignee := child.back
        -- extend the alternation's span end to the new rule's end, then
        -- append the new alternatives in order
        let altChildren :=
          if newAssignee.kind = .alternation then
            alt.children ++ newAssignee.children
          else
            alt.children ++ [newAssignee]
        let alt2 : Node := .mk .alternation alt.content alt.b
                             newAssignee.e altChildren
        let merged : Node := .mk .rule prev.content prev.b prev.e
                               (prev.children.dropLast ++ [alt2])
        .ok (rs.eraseIdx i ++ [merged])
      | none =>
        .error ⟨child.b, "incremental alternation \x27" ++ rname ++
                         "\x27 without previous rule definition"⟩
    else
      .error ⟨child.b, "invalid operator \x27" ++ op ++
                       "\x27, this should not happen!"⟩
  else
    .ok (rs ++ [child])

/-- Drop one character from each end of a string; models the two `shift`
calls that move a quoted literal's span inside its delimiting quotes. -/
def dropEnds (s : String) : String :=
  String.mk ((s.toList.drop 1).dropLast)

/-- Classification performed by `selector< grammar::quoted_string
>::transform` on the trimmed content: any alphabetic character makes the
node an `istring_tag`, otherwise length one makes it a `one_tag` and any
other length a `string_tag`. -/
def classifyContent (c : String) : NKind :=
  if c.toList.any isAlphaC then .istringTag
  else if c.length = 1 then .oneTag
  else .stringTag

/-- Model of `selector< grammar::quoted_string >::transform`: trim one
delimiter from each boundary of the span, then retag the node by its
content. -/
def quotedStringTransform (n : Node) : Node :=
  let c := dropEnds n.content
  .mk (classifyContent c) c (n.b + 1) (n.e - 1) n.children

/-- Model of `selector< grammar::case_sensitive_string >::transform`: the
node is replaced by its last child (the already-transformed quoted string)
and retagged by content length alone, one character meaning `one_tag` and
anything else `string_tag`. -/
def caseSensitiveTransform (n : Node) : Node :=
  let q := n.back
  .mk (if q.content.length = 1 then .oneTag else .stringTag)
    q.content q.b q.e q.children

/-- Model of the `grammar::repetition` branch of `to_string`: the
repeat-count algebra applied to the repeat specification `rep` (the content
of the node's first child) and the already-emitted inner `content`.
`strtoull` is modelled as the exact decimal value, which agrees with the
program for all in-range counts. -/
def repAlgebra (pos : Nat) (rep : String) (content : String) :
    Except Err String :=
  let l := rep.toList
  match l.findIdx? (fun c => c = '*') with
  | none =>
    let v := removeLeadingZeroes l
    if v.isEmpty then
      .error ⟨pos, "repetition of zero not allowed"⟩
    else
      .ok (tp ++ "rep< " ++ String.mk v ++ ", " ++ content ++ " >")
  | some star =>
    let minL := removeLeadingZeroes (l.take star)
    let maxL := removeLeadingZeroes (l.drop (star + 1))
    if star ≠ l.length - 1 ∧ maxL = [] then
      .error ⟨pos, "repetition maximum of zero not allowed"⟩
    else if minL = [] ∧ maxL = [] then
      .ok (tp ++ "star< " ++ content ++ " >")
    else if minL ≠ [] ∧ maxL = [] then
      if minL = ['1'] then
        .ok (tp ++ "plus< " ++ content ++ " >")
      else
        .ok (tp ++ "rep_min< " ++ String.mk minL ++ ", " ++ content ++ " >")
    else if minL = [] ∧ maxL ≠ [] then
      if maxL = ['1'] then
        .ok (tp ++ "opt< " ++ content ++ " >")
      else
        .ok (tp ++ "rep_max< " ++ String.mk maxL ++ ", " ++ content ++ " >")
    else
      let minV := natOfDigits minL
      let maxV := natOfDigits maxL
      if minV > maxV then
        .error ⟨pos, "repetition minimum which is greater than the " ++
                     "repetition maximum not allowed"⟩
      else
        let minE := if minV = 1 then content
                    else tp ++ "rep< " ++ String.mk minL ++ ", " ++
                         content ++ " >"
        if minV = maxV then
          .ok minE
        else
          let maxE := tp ++ (if maxV - minV = 1 then "opt< "
                             else "rep_opt< " ++ toString (maxV - minV) ++
                                  ", ") ++ content ++ " >"
          .ok (tp ++ "seq< " ++ minE ++ ", " ++ maxE ++ " >")

mutual

/-- Model of `to_string( const std::unique_ptr< node >& )`, the code
generator, with the registry state threaded explicitly (`rd` is the
read-only `rules_defined` pre-pass list).  Node shapes that the grammar
guarantees (three children for a `rule`, two for a surviving `repetition`,
one for a predicate, a single child under a range) are matched directly;
any other shape falls through to the final internal error, as the program's
assertions and the `missing to_string()` fallthrough make those
unreachable. -/
def toStr (st : GState) (rd : List String) (n : Node) :
    Except Err (String × GState) :=
  match n with
  | .mk .rulename c b _ _ => st.getRulename rd c b true
  | .mk .stringTag c _ _ _ =>
      .ok (tp ++ "string< " ++ renderChars c ++ " >", st)
  | .mk .istringTag c _ _ _ =>
      .ok (tp ++ "istring< " ++ renderChars c ++ " >", st)
  | .mk .oneTag c _ _ _ =>
      .ok (tp ++ "one< " ++ renderChars c ++ " >", st)
  | .mk .proseVal c _ _ _ => .ok ("/* " ++ c ++ " */", st)
  | .mk .hexValue c _ _ _ => .ok ("0x" ++ c, st)
  | .mk .decValue c _ _ _ => .ok (c, st)
  | .mk .binValue c _ _ _ => .ok (toString (natOfBits c.toList), st)
  | .mk .hexType _ _ _ [x, .mk .hexRange _ _ _ [rv]] => do
      let (s1, st1) ← toStr st rd x
      let (s2, st2) ← toStr st1 rd rv
      .ok (tp ++ "range< " ++ s1 ++ ", " ++ s2 ++ " >", st2)
  | .mk .hexType _ _ _ cs => do
      let (s, st1) ← toStrList st rd "" cs
      .ok (tp ++ (if cs.length = 1 then "one< " else "string< ") ++
           s ++ " >", st1)
  | .mk .decType _ _ _ [x, .mk .decRange _ _ _ [rv]] => do
      let (s1, st1) ← toStr st rd x
      let (s2, st2) ← toStr st1 rd rv
      .ok (tp ++ "range< " ++ s1 ++ ", " ++ s2 ++ " >", st2)
  | .mk .decType _ _ _ cs => do
      let (s, st1) ← toStrList st rd "" cs
      .ok (tp ++ (if cs.length = 1 then "one< " else "string< ") ++
           s ++ " >", st1)
  | .mk .binType _ _ _ [x, .mk .binRange _ _ _ [rv]] => do
      let (s1, st1) ← toStr st rd x
      let (s2, st2) ← toStr st1 rd rv
      .ok (tp ++ "range< " ++ s1 ++ ", " ++ s2 ++ " >", st2)
  | .mk .binType _ _ _ cs => do
      let (s, st1) ← toStrList st rd "" cs
      .ok (tp ++ (if cs.length = 1 then "one< " else "string< ") ++
           s ++ " >", st1)
  | .mk .alternation _ _ _ cs => do
      let (s, st1) ← toStrList st rd "" cs
      .ok (tp ++ "sor< " ++ s ++ " >", st1)
  | .mk .option _ _ _ cs => do
      let (s, st1) ← toStrList st rd "" cs
      .ok (tp ++ "opt< " ++ s ++ " >", st1)
  | .mk .group _ _ _ cs => do
      let (s, st1) ← toStrList st rd "" cs
      .ok (tp ++ "seq< " ++ s ++ " >", st1)
  | .mk .repetition _ b _ [f, el] => do
      let (content, st1) ← toStr st rd el
      let r ← repAlgebra b f.content content
      .ok (r, st1)
  | .mk .andPredicate _ _ _ [x] => do
      let (s, st1) ← toStr st rd x
      .ok (tp ++ "at< " ++ s ++ " >", st1)
  | .mk .notPredicate _ _ _ [x] => do
      let (s, st1) ← toStr st rd x
      .ok (tp ++ "not_at< " ++ s ++ " >", st1)
  | .mk .concatenation _ _ _ cs => do
      let (s, st1) ← toStrList st rd "" cs
      .ok (tp ++ "seq< " ++ s ++ " >", st1)
  | .mk .rule _ _ _ [rn, _, assignee] => do
      let (name, st1) ← st.getRulename rd rn.content rn.b false
      let (body, st2) ← toStr st1 rd assignee
      .ok ("struct " ++ name ++ " : " ++ body ++ " \x7b\x7d;", st2)
  | .mk _ _ b _ _ =>
      .error ⟨b, "missing to_string()"⟩

/-- Model of `to_string( const std::vector< std::unique_ptr< node > >& )`:
emit the children left to right, joining with `, ` exactly as the
accumulating loop does. -/
def toStrList (st : GState) (rd : List String) (acc : String)
    (ns : List Node) : Except Err (String × GState) :=
  match ns with
  | [] => .ok (acc, st)
  | x :: rest => do
      let (s, st1) ← toStr st rd x
      toStrList st1 rd (if acc.isEmpty then s else acc ++ ", " ++ s) rest

end

/-! Concrete nodes used by counterexamples and witnesses: literal nodes as
the quoted-string transform leaves them, and rulelist entries as the parser
builds them (`rule` nodes with a rulename, an assignment operator and an
assignee). -/

/-- The node left by parsing the literal `"y"`. -/
def yN : Node := .mk .oneTag "y" 8 9 []

/-- The node left by parsing the literal `"x"`. -/
def xN : Node := .mk .oneTag "x" 28 29 []

/-- The node left by parsing the literal `"z"`. -/
def zN : Node := .mk .oneTag "z" 18 19 []

/-- Rulelist entry for `foo = "y"`. -/
def fooRule : Node :=
  .mk .rule "" 0 10 [.mk .rulename "foo" 0 3 [], .mk .definedAsOp "=" 4 5 [], yN]

/-- Newly parsed rule for `foo =/ "x"`. -/
def fooExt : Node :=
  .mk .rule "" 20 30
    [.mk .rulename "foo" 20 23 [], .mk .definedAsOp "=/" 24 26 [], xN]

/-- Newly parsed duplicate rule `FOO = "z"`. -/
def fooDup : Node :=
  .mk .rule "" 11 20
    [.mk .rulename "FOO" 11 14 [], .mk .definedAsOp "=" 15 16 [], zN]

/-- Rulelist entry for `a = "y"`. -/
def cexRuleA : Node :=
  .mk .rule "" 0 10 [.mk .rulename "a" 0 1 [], .mk .definedAsOp "=" 2 3 [], yN]

/-- Rulelist entry for `b = "z"`. -/
def cexRuleB : Node :=
  .mk .rule "" 11 20
    [.mk .rulename "b" 11 12 [], .mk .definedAsOp "=" 13 14 [], zN]

/-- Newly parsed rule for `a =/ "x"`. -/
def cexExtA : Node :=
  .mk .rule "" 21 30
    [.mk .rulename "a" 21 22 [], .mk .definedAsOp "=/" 23 25 [], xN]

/-- Rulelist entry for `a-b = "y"`. -/
def abRule : Node :=
  .mk .rule "" 0 10
    [.mk .rulename "a-b" 0 3 [], .mk .definedAsOp "=" 4 5 [], yN]

/-- Newly parsed duplicate rule `a_b = "z"`. -/
def abDup : Node :=
  .mk .rule "" 11 20
    [.mk .rulename "a_b" 11 14 [], .mk .definedAsOp "=" 15 16 [], zN]

/-- Newly parsed rule for `a_b =/ "x"`. -/
def abExt : Node :=
  .mk .rule "" 21 30
    [.mk .rulename "a_b" 21 24 [], .mk .definedAsOp "=/" 25 27 [], xN]

/-! Theorems -/

/-- C1 (counterexample).  The claim says a merged `=/` rule keeps its
original rulelist index, so rulelist order equals first-definition order.
On the rulelist `a = "y"`, `b = "z"` the extension `a =/ "x"` instead
produces the order `b, a`: `emplace_back` erases the previous `a` entry
from index 0 and appends the merged rule at the end. -/
theorem c1_counterexample :
    (emplaceRule [cexRuleA, cexRuleB] cexExtA).map
        (fun l => l.map ruleNameOf) = .ok ["b", "a"] ∧
      ["b", "a"] ≠ ["a", "b"] :=
  ⟨rfl, by decide⟩

/-- C1 (amended): when a rule's `=/` incremental extension merges with the
entry at index `i`, the updated rule is erased from index `i` and appended
at the end of the rulelist (so the final order is not first-definition
order when other rules intervene); the merged node keeps the original
rule's span. -/
theorem c1_merged_rule_appended_at_end
    (rs : List Node) (child rn opN assignee : Node) (i : Nat)
    (hk : child.kind = .rule)
    (hch : child.children = [rn, opN, assignee])
    (hop : opN.content = "=/")
    (hfind : rs.findIdx? (fun n =>
        strcaseEq (getRulenameRaw rn.content) (ruleNameOf n)) = some i) :
    ∃ merged : Node,
      emplaceRule rs child = .ok (rs.eraseIdx i ++ [merged]) ∧
      merged.kind = .rule ∧
      merged.b = (rs.getD i default).b ∧
      merged.e = (rs.getD i default).e := by
  have hfront : child.front = rn := by simp [Node.front, hch]
  have hat1 : child.atIdx 1 = opN := by simp [Node.atIdx, hch]
  simp only [emplaceRule, hk, hfront, hat1, hop, hfind]
  exact ⟨_, rfl, rfl, rfl, rfl⟩

/-- C1 (witness): the amended statement applied to the concrete rulelist
`a = "y"`, `b = "z"` and extension `a =/ "x"`. -/
theorem c1_merged_rule_appended_at_end_witness :
    ∃ merged : Node,
      emplaceRule [cexRuleA, cexRuleB] cexExtA =
        .ok ([cexRuleA, cexRuleB].eraseIdx 0 ++ [merged]) ∧
      merged.kind = .rule ∧
      merged.b = ([cexRuleA, cexRuleB].getD 0 default).b ∧
      merged.e = ([cexRuleA, cexRuleB].getD 0 default).e :=
  c1_merged_rule_appended_at_end [cexRuleA, cexRuleB] cexExtA
    (.mk .rulename "a" 21 22 []) (.mk .definedAsOp "=/" 23 25 []) xN 0
    rfl rfl rfl rfl

/-- C2 (counterexample).  The claim says a fresh rule name whose normalized
form matches a reserved word regardless of ASCII case is rejected.  The
name `Int` matches the keyword `int` case-insensitively, yet
`get_rulename` accepts and registers it: the keyword lookup
`keywords.count( v )` is case-sensitive. -/
theorem c2_counterexample :
    strcaseEq "Int" "int" = true ∧
    keywords.contains "int" = true ∧
    findRule [] (replaceDashes "Int") = none ∧
    GState.getRulename ⟨[], []⟩ [] "Int" 0 false =
      .ok ("Int", ⟨["Int"], []⟩) :=
  ⟨rfl, by decide, rfl, rfl⟩

/-- C2 (amended): for a rule name not previously seen, name resolution
fails with a reserved-name error carrying the identifier and its source
position exactly when the normalized name (dashes replaced by underscores)
is equal to a reserved word by exact, case-sensitive comparison, or
contains the double-underscore substring. -/
theorem c2_reserved_name_check
    (st : GState) (rd : List String) (content : String) (pos : Nat)
    (pfd : Bool)
    (hnew : findRule st.rules (replaceDashes content) = none) :
    ((∃ e, st.getRulename rd content pos pfd = .error e) ↔
      (keywords.contains (replaceDashes content) ||
       hasDoubleUnderscore (replaceDashes content).toList) = true) ∧
    (∀ e, st.getRulename rd content pos pfd = .error e →
      e = ⟨pos, "\x27" ++ replaceDashes content ++
                "\x27 is a reserved rulename"⟩) := by
  simp only [GState.getRulename, getRulenameRaw, hnew]
  cases hb : keywords.contains (replaceDashes content) ||
      hasDoubleUnderscore (replaceDashes content).toList with
  | true =>
    refine ⟨by simp [hb], ?_⟩
    intro e he
    simp [hb] at he
    exact he.symm
  | false =>
    refine ⟨by simp [hb], ?_⟩
    intro e he
    simp [hb] at he

/-- C2 (witness): the amended statement applied to the fresh name `do`,
which is rejected as a reserved rulename. -/
theorem c2_reserved_name_check_witness :
    findRule ([] : List String) (replaceDashes "do") = none ∧
    (∃ e, GState.getRulename ⟨[], []⟩ [] "do" 3 false = .error e) :=
  ⟨rfl, (c2_reserved_name_check ⟨[], []⟩ [] "do" 3 false rfl).1.mpr
    (by decide)⟩

/-- C3: merging a `=/` rule whose name matches the rulelist entry at the
first matching index `i` keeps that entry's rulename and operator children,
and replaces its assignee with an alternation whose children are the old
alternatives (the old assignee's children if it was an alternation, else
the old assignee itself) followed by the new alternatives (all children of
the new assignee if it is an alternation, else the new assignee itself), in
declaration order. -/
theorem c3_incremental_merge_children
    (rs : List Node) (child rn opN assignee prn pop passignee : Node)
    (i : Nat)
    (hk : child.kind = .rule)
    (hch : child.children = [rn, opN, assignee])
    (hop : opN.content = "=/")
    (hfind : rs.findIdx? (fun n =>
        strcaseEq (getRulenameRaw rn.content) (ruleNameOf n)) = some i)
    (hprev : (rs.getD i default).children = [prn, pop, passignee]) :
    ∃ alt : Node,
      emplaceRule rs child = .ok (rs.eraseIdx i ++
        [Node.mk .rule (rs.getD i default).content (rs.getD i default).b
          (rs.getD i default).e [prn, pop, alt]]) ∧
      alt.kind = .alternation ∧
      alt.children =
        (if passignee.kind = .alternation then passignee.children
         else [passignee]) ++
        (if assignee.kind = .alternation then assignee.children
         else [assignee]) := by
  have hfront : child.front = rn := by simp [Node.front, hch]
  have hat1 : child.atIdx 1 = opN := by simp [Node.atIdx, hch]
  have hback : child.back = assignee := by simp [Node.back, hch]
  have hpback : (rs.getD i default).back = passignee := by
    simp only [Node.back, hprev]
    rfl
  have hpdrop : (rs.getD i default).children.dropLast = [prn, pop] := by
    simp only [hprev]
    rfl
  simp only [emplaceRule, hk, hfront, hat1, hop, hfind, hback, hpback,
    hpdrop, List.append_assoc, List.singleton_append, List.cons_append,
    List.nil_append]
  refine ⟨_, rfl, rfl, ?_⟩
  by_cases hp : passignee.kind = .alternation <;>
    by_cases ha : assignee.kind = .alternation <;>
    simp [hp, ha, Node.children]

/-- C3 (witness): `foo = "y"` followed by `foo =/ "x"` leaves exactly one
`foo` entry whose assignee is an alternation with children `"y"`, `"x"` in
order. -/
theorem c3_incremental_merge_children_witness :
    ∃ alt : Node,
      emplaceRule [fooRule] fooExt = .ok [Node.mk .rule "" 0 10
        [.mk .rulename "foo" 0 3 [], .mk .definedAsOp "=" 4 5 [], alt]] ∧
      alt.kind = .alternation ∧ alt.children = [yN, xN] := by
  obtain ⟨alt, h1, h2, h3⟩ := c3_incremental_merge_children [fooRule] fooExt
    (.mk .rulename "foo" 20 23 []) (.mk .definedAsOp "=/" 24 26 []) xN
    (.mk .rulename "foo" 0 3 []) (.mk .definedAsOp "=" 4 5 []) yN 0
    rfl rfl rfl rfl rfl
  refine ⟨alt, ?_, h2, ?_⟩
  · simpa [fooRule, Node.content, Node.b, Node.e] using h1
  · simpa [yN, xN, Node.kind, Node.children] using h3

/-- C6: appending a rule node to the rulelist fails exactly as the claim
says.  With operator `=`, a case-insensitive name match with an existing
entry yields the positioned duplicate-definition error and no match yields
a plain append; with operator `=/`, no match yields the positioned
missing-previous-rule error and a match always succeeds.  In the error
cases the function returns no rulelist at all, so the rulelist is
unchanged. -/
theorem c6_append_error_conditions
    (rs : List Node) (child rn opN assignee : Node)
    (hk : child.kind = .rule)
    (hch : child.children = [rn, opN, assignee]) :
    (opN.content = "=" →
      rs.any (fun n =>
        strcaseEq (getRulenameRaw rn.content) (ruleNameOf n)) = true →
      emplaceRule rs child = .error ⟨child.b,
        "rule \x27" ++ getRulenameRaw rn.content ++
        "\x27 is already defined"⟩) ∧
    (opN.content = "=" →
      rs.any (fun n =>
        strcaseEq (getRulenameRaw rn.content) (ruleNameOf n)) = false →
      emplaceRule rs child = .ok (rs ++ [child])) ∧
    (opN.content = "=/" →
      rs.any (fun n =>
        strcaseEq (getRulenameRaw rn.content) (ruleNameOf n)) = false →
      emplaceRule rs child = .error ⟨child.b,
        "incremental alternation \x27" ++ getRulenameRaw rn.content ++
        "\x27 without previous rule definition"⟩) ∧
    (opN.content = "=/" →
      rs.any (fun n =>
        strcaseEq (getRulenameRaw rn.content) (ruleNameOf n)) = true →
      ∃ l, emplaceRule rs child = .ok l) := by
  have hfront : child.front = rn := by simp [Node.front, hch]
  have hat1 : child.atIdx 1 = opN := by simp [Node.atIdx, hch]
  refine ⟨?_, ?_, ?_, ?_⟩
  · intro hop hm
    simp only [emplaceRule, hk, hfront, hat1, hop, hm]
    rfl
  · intro hop hm
    simp only [emplaceRule, hk, hfront, hat1, hop, hm]
    rfl
  · intro hop hm
    have hnone : rs.findIdx? (fun n =>
        strcaseEq (getRulenameRaw rn.content) (ruleNameOf n)) = none :=
      List.findIdx?_eq_none_iff.mpr (by simpa using List.any_eq_false.mp hm)
    simp only [emplaceRule, hk, hfront, hat1, hop, hnone]
    rfl
  · intro hop hm
    obtain ⟨x, hx, hpx⟩ := List.any_eq_true.mp hm
    cases hfi : rs.findIdx? (fun n =>
        strcaseEq (getRulenameRaw rn.content) (ruleNameOf n)) with
    | none =>
      exact absurd ((List.findIdx?_eq_none_iff.mp hfi) x hx) (by simp [hpx])
    | some i =>
      simp only [emplaceRule, hk, hfront, hat1, hop, hfi]
      exact ⟨_, rfl⟩

/-- C6 (witness): the duplicate branch at a concrete input: `foo = "y"`
followed by `FOO = "z"` fails with the positioned duplicate-definition
error. -/
theorem c6_append_error_conditions_witness :
    [fooRule].any (fun n => strcaseEq (getRulenameRaw "FOO")
      (ruleNameOf n)) = true ∧
    emplaceRule [fooRule] fooDup =
      .error ⟨11, "rule \x27FOO\x27 is already defined"⟩ :=
  ⟨rfl, (c6_append_error_conditions [fooRule] fooDup
    (.mk .rulename "FOO" 11 14 []) (.mk .definedAsOp "=" 15 16 []) zN
    rfl rfl).1 rfl rfl⟩

/-- C10: duplicate and prior-definition detection compares names after
replacing `-` with `_` as well as ignoring case: `a-b = "y"` followed by
`a_b = "z"` is a duplicate-definition error, while `a-b = "y"` followed by
`a_b =/ "x"` merges into the single `a-b` entry with alternatives
`"y"`, `"x"`. -/
theorem c10_normalized_name_matching :
    emplaceRule [abRule] abDup =
      .error ⟨11, "rule \x27a_b\x27 is already defined"⟩ ∧
    emplaceRule [abRule] abExt =
      .ok [.mk .rule "" 0 10 [.mk .rulename "a-b" 0 3 [],
        .mk .definedAsOp "=" 4 5 [],
        .mk .alternation "y" 8 29 [yN, xN]]] :=
  ⟨rfl, rfl⟩

/-- Case-insensitive string comparison is symmetric. -/
theorem strcaseEq_comm (a b : String) : strcaseEq a b = strcaseEq b a := by
  simp [strcaseEq, eq_comm]

/-- Case-insensitive string comparison is transitive. -/
theorem strcaseEq_trans {a b c : String} (h1 : strcaseEq a b = true)
    (h2 : strcaseEq b c = true) : strcaseEq a c = true := by
  simp only [strcaseEq, decide_eq_true_eq] at *
  exact h1.trans h2

/-- When exactly one element of a list satisfies a predicate, `find?`
returns it. -/
theorem find?_eq_of_unique {α : Type} (p : α → Bool) (c : α) :
    ∀ (l : List α), c ∈ l → p c = true →
      (∀ x ∈ l, p x = true → x = c) → l.find? p = some c := by
  intro l
  induction l with
  | nil => intro h; cases h
  | cons a t ih =>
    intro hc hpc huniq
    cases hpa : p a with
    | true =>
      have hac : a = c := huniq a (List.mem_cons_self a t) hpa
      subst hac
      simp [List.find?_cons, hpa]
    | false =>
      have hct : c ∈ t := by
        cases List.mem_cons.mp hc with
        | inl h => exact absurd (h ▸ hpc) (by simp [hpa])
        | inr h => exact h
      simp only [List.find?_cons, hpa]
      exact ih hct hpc
        (fun x hx hpx => huniq x (List.mem_cons_of_mem a hx) hpx)

/-- With pairwise case-insensitively distinct seen spellings, the
reverse scan of `find_rule` returns the unique matching spelling. -/
theorem findRule_eq_of_unique (rs : List String) (v c : String)
    (hd : List.Pairwise (fun a b => strcaseEq a b = false) rs)
    (hc : c ∈ rs) (hcv : strcaseEq c v = true) :
    findRule rs v = some c := by
  unfold findRule
  apply find?_eq_of_unique
  · simpa using hc
  · exact hcv
  · intro x hx hpx
    by_contra hne
    have hx2 : x ∈ rs := by simpa using hx
    have hsym : Symmetric (fun a b : String => strcaseEq a b = false) := by
      intro a b h
      rw [strcaseEq_comm]
      exact h
    have hfalse : strcaseEq x c = false := hd.forall hsym hx2 hc hne
    have htrue : strcaseEq x c = true :=
      strcaseEq_trans hpx (by rw [strcaseEq_comm]; exact hcv)
    simp [htrue] at hfalse

/-- C4: when a fresh rule name is resolved, the canonical spelling
registered is the first occurrence's spelling with `-` replaced by `_` and
it is appended to the seen list; afterwards, in any state whose seen list
is pairwise case-insensitively distinct and contains that spelling, every
reference whose normalized form matches it regardless of ASCII case
resolves to exactly that spelling and leaves the state unchanged. -/
theorem c4_first_spelling_authoritative
    (st : GState) (rd : List String) (raw1 : String) (pos1 : Nat)
    (pfd1 : Bool) (c : String) (st1 : GState)
    (hnew : findRule st.rules (replaceDashes raw1) = none)
    (hok : st.getRulename rd raw1 pos1 pfd1 = .ok (c, st1)) :
    c = replaceDashes raw1 ∧ st1.rules = st.rules ++ [c] ∧
    (∀ (st2 : GState) (rd2 : List String) (raw2 : String) (pos2 : Nat)
       (pfd2 : Bool),
      List.Pairwise (fun a b => strcaseEq a b = false) st2.rules →
      c ∈ st2.rules →
      strcaseEq (replaceDashes raw2) c = true →
      st2.getRulename rd2 raw2 pos2 pfd2 = .ok (c, st2)) := by
  simp only [GState.getRulename, getRulenameRaw, hnew] at hok
  split at hok
  · simp at hok
  · rw [Except.ok.injEq, Prod.mk.injEq] at hok
    obtain ⟨hv, hst⟩ := hok
    refine ⟨hv.symm, ?_, ?_⟩
    · rw [← hst, hv]
    · intro st2 rd2 raw2 pos2 pfd2 hpw hmem hci
      have hfr : findRule st2.rules (replaceDashes raw2) = some c :=
        findRule_eq_of_unique st2.rules (replaceDashes raw2) c hpw hmem
          (by rw [strcaseEq_comm]; exact hci)
      simp only [GState.getRulename, getRulenameRaw, hfr]

/-- C4 (witness): `my-Rule` is registered as `my_Rule`, and the later
reference `MY-RULE` resolves to the first-seen spelling `my_Rule`. -/
theorem c4_first_spelling_authoritative_witness :
    findRule ([] : List String) (replaceDashes "my-Rule") = none ∧
    GState.getRulename ⟨[], []⟩ [] "my-Rule" 0 false =
      .ok ("my_Rule", ⟨["my_Rule"], []⟩) ∧
    GState.getRulename ⟨["my_Rule"], []⟩ [] "MY-RULE" 5 true =
      .ok ("my_Rule", ⟨["my_Rule"], []⟩) := by
  refine ⟨rfl, rfl, ?_⟩
  have h := c4_first_spelling_authoritative ⟨[], []⟩ [] "my-Rule" 0 false
    "my_Rule" ⟨["my_Rule"], []⟩ rfl rfl
  exact h.2.2 ⟨["my_Rule"], []⟩ [] "MY-RULE" 5 true (by simp) (by simp) rfl

/-- Unfolding helper: `String.mk` then `toList` is the identity. -/
theorem toList_mk (l : List Char) : (String.mk l).toList = l := rfl

/-- Emission of a repetition node: the inner element is emitted first and
the repeat-count algebra is applied to the first child's content. -/
theorem toStr_repetition (st st1 : GState) (rd : List String)
    (c : String) (b e : Nat) (f el : Node) (content : String)
    (hel : toStr st rd el = .ok (content, st1)) :
    toStr st rd (.mk .repetition c b e [f, el]) =
      (repAlgebra b f.content content).map (fun r => (r, st1)) := by
  cases hrep : repAlgebra b f.content content with
  | error err => simp only [toStr, hel, hrep, Except.map, Except.bind,
      Except.instMonad, Bind.bind, pure]
  | ok r => simp only [toStr, hel, hrep, Except.map, Except.bind,
      Except.instMonad, Bind.bind, pure]

/-- A list of digits contains no asterisk, so `findIdx?` finds none. -/
theorem findIdx?_star_none (d : List Char) (h : ∀ ch ∈ d, ch ≠ '*') :
    d.findIdx? (fun ch => ch = '*') = none :=
  List.findIdx?_eq_none_iff.mpr (fun x hx => by simpa using h x hx)

/-- The first asterisk after a digit prefix sits at the prefix's length. -/
theorem findIdx?_star_append (m k : List Char) (h : ∀ ch ∈ m, ch ≠ '*') :
    (m ++ '*' :: k).findIdx? (fun ch => ch = '*') = some m.length := by
  rw [List.findIdx?_append, findIdx?_star_none m h]
  simp [List.findIdx?_cons]

/-- Dropping the leading-zero prefix of an all-zero digit list leaves
nothing. -/
theorem removeLeadingZeroes_eq_nil (l : List Char) (h : ∀ ch ∈ l, ch = '0') :
    removeLeadingZeroes l = [] := by
  induction l with
  | nil => rfl
  | cons a t ih =>
    have ha := h a (by simp)
    simp only [removeLeadingZeroes] at *
    simp [List.dropWhile_cons, ha, ih (fun ch hch => h ch (by simp [hch]))]

/-- Dropping everything up to and including the separator. -/
theorem drop_sep (m k : List Char) :
    (m ++ '*' :: k).drop (m.length + 1) = k := by
  have h1 : m ++ '*' :: k = (m ++ ['*']) ++ k := by simp
  have h2 : (m ++ ['*']).length = m.length + 1 := by simp
  rw [h1, ← h2, List.drop_left]

/-- C5: the emitted quantifier follows the repeat-count algebra: `1*3`
emits the bare content sequenced with a bounded-extra wrapper of count 2,
`0*` emits a zero-or-more wrapper, `*1` emits a zero-or-one wrapper,
`N*M` with equal stripped bounds collapses to the exact-`N` form (bare
content when `N` is 1), and `3*1` is the fatal min-greater-than-max
error. -/
theorem c5_repetition_quantifier_algebra
    (st st1 : GState) (rd : List String) (c : String) (b e rb re2 : Nat)
    (el : Node) (content : String)
    (hel : toStr st rd el = .ok (content, st1)) :
    (toStr st rd (.mk .repetition c b e
        [.mk .repeatCount "1*3" rb re2 [], el]) =
      .ok (tp ++ "seq< " ++ content ++ ", " ++
           (tp ++ "rep_opt< 2, " ++ content ++ " >") ++ " >", st1)) ∧
    (toStr st rd (.mk .repetition c b e
        [.mk .repeatCount "0*" rb re2 [], el]) =
      .ok (tp ++ "star< " ++ content ++ " >", st1)) ∧
    (toStr st rd (.mk .repetition c b e
        [.mk .repeatCount "*1" rb re2 [], el]) =
      .ok (tp ++ "opt< " ++ content ++ " >", st1)) ∧
    (∀ m k : List Char, (∀ ch ∈ m, ch.isDigit = true) →
      removeLeadingZeroes m ≠ [] → removeLeadingZeroes k ≠ [] →
      natOfDigits (removeLeadingZeroes m) =
        natOfDigits (removeLeadingZeroes k) →
      toStr st rd (.mk .repetition c b e
        [.mk .repeatCount (String.mk (m ++ '*' :: k)) rb re2 [], el]) =
      .ok ((if natOfDigits (removeLeadingZeroes m) = 1 then content
            else tp ++ "rep< " ++ String.mk (removeLeadingZeroes m) ++
                 ", " ++ content ++ " >"), st1)) ∧
    (toStr st rd (.mk .repetition c b e
        [.mk .repeatCount "3*1" rb re2 [], el]) =
      .error ⟨b, "repetition minimum which is greater than the " ++
                 "repetition maximum not allowed"⟩) := by
  refine ⟨?_, ?_, ?_, ?_, ?_⟩
  · rw [toStr_repetition st st1 rd c b e _ el content hel]
    simp only [Node.content]
    rfl
  · rw [toStr_repetition st st1 rd c b e _ el content hel]
    simp only [Node.content]
    rfl
  · rw [toStr_repetition st st1 rd c b e _ el content hel]
    simp only [Node.content]
    rfl
  · intro m k hm hmnz hknz heq
    rw [toStr_repetition st st1 rd c b e _ el content hel]
    have hstar : ∀ ch ∈ m, ch ≠ '*' := by
      intro ch hch hceq
      have := hm ch hch
      rw [hceq] at this
      simp [Char.isDigit] at this
    have hfi : (m ++ '*' :: k).findIdx? (fun ch => ch = '*') =
        some m.length := findIdx?_star_append m k hstar
    have htake : (m ++ '*' :: k).take m.length = m := List.take_left m _
    have hdrop : (m ++ '*' :: k).drop (m.length + 1) = k := drop_sep m k
    simp only [repAlgebra, Node.content, toList_mk, hfi, htake, hdrop]
    simp [hmnz, hknz, heq]
    rfl
  · rw [toStr_repetition st st1 rd c b e _ el content hel]
    simp only [Node.content]
    rfl

/-- C5 (witness): the algebra applied to the concrete element `"x"`. -/
theorem c5_repetition_quantifier_algebra_witness :
    toStr ⟨[], []⟩ [] xN = .ok (tp ++ "one< \x27x\x27 >", ⟨[], []⟩) ∧
    toStr ⟨[], []⟩ [] (.mk .repetition "" 7 9
        [.mk .repeatCount "1*3" 7 10 [], xN]) =
      .ok (tp ++ "seq< " ++ (tp ++ "one< \x27x\x27 >") ++ ", " ++
           (tp ++ "rep_opt< 2, " ++ (tp ++ "one< \x27x\x27 >") ++ " >") ++
           " >", ⟨[], []⟩) :=
  ⟨rfl, (c5_repetition_quantifier_algebra ⟨[], []⟩ ⟨[], []⟩ [] "" 7 9 7 10
    xN (tp ++ "one< \x27x\x27 >") rfl).1⟩

/-- C9: a repeat-count with no `*` whose digits strip to nothing (an exact
count of zero such as `0` or `000`) is the fatal repetition-of-zero error,
and a repeat-count of the form `*M` or `N*M` whose digits after the `*`
are present but all zero is the fatal max-of-zero error. -/
theorem c9_zero_repetition_errors
    (st st1 : GState) (rd : List String) (c : String) (b e rb re2 : Nat)
    (el : Node) (content : String)
    (hel : toStr st rd el = .ok (content, st1)) :
    (∀ d : List Char, d ≠ [] → (∀ ch ∈ d, ch = '0') →
      toStr st rd (.mk .repetition c b e
        [.mk .repeatCount (String.mk d) rb re2 [], el]) =
      .error ⟨b, "repetition of zero not allowed"⟩) ∧
    (∀ m k : List Char, (∀ ch ∈ m, ch.isDigit = true) → k ≠ [] →
      (∀ ch ∈ k, ch = '0') →
      toStr st rd (.mk .repetition c b e
        [.mk .repeatCount (String.mk (m ++ '*' :: k)) rb re2 [], el]) =
      .error ⟨b, "repetition maximum of zero not allowed"⟩) := by
  constructor
  · intro d hne h0
    rw [toStr_repetition st st1 rd c b e _ el content hel]
    have hstar : ∀ ch ∈ d, ch ≠ '*' := by
      intro ch hch heq
      have := h0 ch hch
      rw [heq] at this
      cases this
    have hfi : d.findIdx? (fun ch => ch = '*') = none :=
      findIdx?_star_none d hstar
    have hz : removeLeadingZeroes d = [] := removeLeadingZeroes_eq_nil d h0
    simp only [repAlgebra, Node.content, toList_mk, hfi, hz]
    rfl
  · intro m k hm hk h0
    rw [toStr_repetition st st1 rd c b e _ el content hel]
    have hstar : ∀ ch ∈ m, ch ≠ '*' := by
      intro ch hch heq
      have := hm ch hch
      rw [heq] at this
      simp [Char.isDigit] at this
    have hfi : (m ++ '*' :: k).findIdx? (fun ch => ch = '*') =
        some m.length := findIdx?_star_append m k hstar
    have hdrop : (m ++ '*' :: k).drop (m.length + 1) = k := drop_sep m k
    have hz : removeLeadingZeroes k = [] := removeLeadingZeroes_eq_nil k h0
    have hkpos : 0 < k.length := List.length_pos.mpr hk
    have hcond : m.length ≠ (m ++ '*' :: k).length - 1 := by
      simp only [List.length_append, List.length_cons]
      omega
    simp only [repAlgebra, Node.content, toList_mk, hfi, hdrop, hz]
    rw [if_pos ⟨hcond, trivial⟩]
    rfl

/-- C9 (witness): the two error branches at the concrete repeat
specifications `00` and `2*0` over the element `"x"`. -/
theorem c9_zero_repetition_errors_witness :
    toStr ⟨[], []⟩ [] xN = .ok (tp ++ "one< \x27x\x27 >", ⟨[], []⟩) ∧
    toStr ⟨[], []⟩ [] (.mk .repetition "" 7 9
        [.mk .repeatCount (String.mk ['0', '0']) 7 10 [], xN]) =
      .error ⟨7, "repetition of zero not allowed"⟩ ∧
    toStr ⟨[], []⟩ [] (.mk .repetition "" 7 9
        [.mk .repeatCount (String.mk (['2'] ++ '*' :: ['0'])) 7 10 [], xN]) =
      .error ⟨7, "repetition maximum of zero not allowed"⟩ :=
  ⟨rfl,
   (c9_zero_repetition_errors ⟨[], []⟩ ⟨[], []⟩ [] "" 7 9 7 10 xN
     (tp ++ "one< \x27x\x27 >") rfl).1 ['0', '0'] (by decide) (by decide),
   (c9_zero_repetition_errors ⟨[], []⟩ ⟨[], []⟩ [] "" 7 9 7 10 xN
     (tp ++ "one< \x27x\x27 >") rfl).2 ['2'] ['0'] (by decide) (by decide)
     (by decide)⟩

/-- C7: a quoted literal whose trimmed content has no alphabetic character
is retagged `one_tag` at length one and `string_tag` at any other length,
any alphabetic character makes it `istring_tag`, and the explicit
case-sensitive `%s` form is always retagged by length alone, whatever the
content. -/
theorem c7_literal_classification (k : NKind) (span : String) (b e : Nat)
    (cs : List Node) (q : Node) :
    ((dropEnds span).toList.any isAlphaC = false →
      (dropEnds span).length = 1 →
      (quotedStringTransform (.mk k span b e cs)).kind = .oneTag) ∧
    ((dropEnds span).toList.any isAlphaC = false →
      (dropEnds span).length ≠ 1 →
      (quotedStringTransform (.mk k span b e cs)).kind = .stringTag) ∧
    ((dropEnds span).toList.any isAlphaC = true →
      (quotedStringTransform (.mk k span b e cs)).kind = .istringTag) ∧
    ((caseSensitiveTransform q).kind =
      if q.back.content.length = 1 then .oneTag else .stringTag) := by
  refine ⟨?_, ?_, ?_, ?_⟩
  · intro h1 h2
    show classifyContent (dropEnds span) = .oneTag
    simp only [classifyContent]
    rw [h1]
    simp [h2]
  · intro h1 h2
    show classifyContent (dropEnds span) = .stringTag
    simp only [classifyContent]
    rw [h1]
    simp [h2]
  · intro h1
    show classifyContent (dropEnds span) = .istringTag
    simp only [classifyContent]
    rw [h1]
    simp
  · simp [caseSensitiveTransform, Node.kind]

/-- C7 (witness): `"5"` becomes a one-character matcher, `".."` a
case-sensitive string, `"ab"` a case-insensitive string, and `%s"ab"`
a case-sensitive string despite its letters. -/
theorem c7_literal_classification_witness :
    (quotedStringTransform (.mk .rulename "\x225\x22" 0 3 [])).kind =
      .oneTag ∧
    (quotedStringTransform (.mk .rulename "\x22..\x22" 0 4 [])).kind =
      .stringTag ∧
    (quotedStringTransform (.mk .rulename "\x22ab\x22" 0 4 [])).kind =
      .istringTag ∧
    (caseSensitiveTransform (.mk .rulename "%s\x22ab\x22" 0 6
        [quotedStringTransform (.mk .rulename "\x22ab\x22" 2 6 [])])).kind =
      .stringTag :=
  ⟨(c7_literal_classification .rulename "\x225\x22" 0 3 [] default).1
     (by decide) (by decide),
   (c7_literal_classification .rulename "\x22..\x22" 0 4 [] default).2.1
     (by decide) (by decide),
   (c7_literal_classification .rulename "\x22ab\x22" 0 4 [] default).2.2.1
     (by decide),
   ((c7_literal_classification .rulename "" 0 0 []
       (.mk .rulename "%s\x22ab\x22" 0 6
         [quotedStringTransform (.mk .rulename "\x22ab\x22" 2 6 [])])).2.2.2).trans
     (by decide)⟩

/-- The comma-separated join built by the generator loop, seeded with an
accumulator and rendering each element with `g`. -/
def joinWith (g : String → String) (acc : String) (ds : List String) :
    String :=
  ds.foldl (fun a s => if a.isEmpty then g s else a ++ ", " ++ g s) acc

/-- Emitting a list of side-effect-free value nodes joins their renderings
with commas and leaves the registry state unchanged. -/
theorem toStrList_pure_values (rd : List String) (mkV : String → Node)
    (g : String → String)
    (hg : ∀ (d : String) (st0 : GState),
      toStr st0 rd (mkV d) = .ok (g d, st0)) :
    ∀ (ds : List String) (st : GState) (acc : String),
      toStrList st rd acc (ds.map mkV) = .ok (joinWith g acc ds, st) := by
  intro ds
  induction ds with
  | nil => intro st acc; rfl
  | cons d rest ih =>
    intro st acc
    simp only [List.map_cons, toStrList, hg]
    simp only [Except.bind, Bind.bind, Except.instMonad]
    exact ih st _

/-- C8: hex values render as `0x`-prefixed literal digits, decimal values
render unchanged, binary values render the decimal form of the base-2
value; a numeric type node with exactly two children whose second child is
a range node renders as an inclusive `range< lo, hi >`, a single child
renders as `one< v >`, and two or more value children render as
`string< v1, ..., vn >`. -/
theorem c8_numeric_value_emission
    (st : GState) (rd : List String) (c : String)
    (b e b2 e2 b3 e3 : Nat) (d d1 d2 : String) :
    (toStr st rd (.mk .hexValue d b e []) = .ok ("0x" ++ d, st)) ∧
    (toStr st rd (.mk .decValue d b e []) = .ok (d, st)) ∧
    (toStr st rd (.mk .binValue d b e []) =
      .ok (toString (natOfBits d.toList), st)) ∧
    (toStr st rd (.mk .hexType c b e [.mk .hexValue d1 b2 e2 [],
        .mk .hexRange "" b3 e3 [.mk .hexValue d2 b2 e2 []]]) =
      .ok (tp ++ "range< " ++ ("0x" ++ d1) ++ ", " ++ ("0x" ++ d2) ++
           " >", st)) ∧
    (toStr st rd (.mk .decType c b e [.mk .decValue d1 b2 e2 [],
        .mk .decRange "" b3 e3 [.mk .decValue d2 b2 e2 []]]) =
      .ok (tp ++ "range< " ++ d1 ++ ", " ++ d2 ++ " >", st)) ∧
    (toStr st rd (.mk .binType c b e [.mk .binValue d1 b2 e2 [],
        .mk .binRange "" b3 e3 [.mk .binValue d2 b2 e2 []]]) =
      .ok (tp ++ "range< " ++ toString (natOfBits d1.toList) ++ ", " ++
           toString (natOfBits d2.toList) ++ " >", st)) ∧
    (toStr st rd (.mk .hexType c b e [.mk .hexValue d b2 e2 []]) =
      .ok (tp ++ "one< " ++ ("0x" ++ d) ++ " >", st)) ∧
    (∀ ds : List String,
      toStr st rd (.mk .hexType c b e
        ((d1 :: d2 :: ds).map (fun s => .mk .hexValue s 0 0 []))) =
      .ok (tp ++ "string< " ++
           joinWith (fun s => "0x" ++ s) "" (d1 :: d2 :: ds) ++ " >",
        st)) := by
  refine ⟨rfl, rfl, rfl, rfl, rfl, rfl, rfl, ?_⟩
  intro ds
  have hlist := toStrList_pure_values rd
    (fun s => Node.mk .hexValue s 0 0 []) (fun s => "0x" ++ s)
    (fun s st0 => rfl) (d1 :: d2 :: ds) st ""
  cases ds with
  | nil =>
    simp only [List.map_cons, List.map_nil] at hlist ⊢
    rw [show toStr st rd (.mk .hexType c b e
        [.mk .hexValue d1 0 0 [], .mk .hexValue d2 0 0 []]) =
      Except.bind (toStrList st rd ""
          [.mk .hexValue d1 0 0 [], .mk .hexValue d2 0 0 []])
        (fun p => Except.ok (tp ++ "string< " ++ p.1 ++ " >", p.2))
      from rfl, hlist]
    rfl
  | cons d3 rest =>
    simp only [List.map_cons] at hlist ⊢
    rw [show toStr st rd (.mk .hexType c b e
        (.mk .hexValue d1 0 0 [] :: .mk .hexValue d2 0 0 [] ::
         .mk .hexValue d3 0 0 [] :: rest.map (fun s =>
           Node.mk .hexValue s 0 0 []))) =
      Except.bind (toStrList st rd ""
          (.mk .hexValue d1 0 0 [] :: .mk .hexValue d2 0 0 [] ::
           .mk .hexValue d3 0 0 [] :: rest.map (fun s =>
             Node.mk .hexValue s 0 0 [])))
        (fun p => Except.ok (tp ++ "string< " ++ p.1 ++ " >", p.2))
      from rfl, hlist]
    rfl

/-- C8 (witness): the emission at the concrete values `%x41`, `%d65`,
`%b1000001`, the range `%x30-39`, and the sequence `%x61.62.63`. -/
theorem c8_numeric_value_emission_witness :
    toStr ⟨[], []⟩ [] (.mk .hexValue "41" 0 0 []) =
      .ok ("0x41", ⟨[], []⟩) ∧
    toStr ⟨[], []⟩ [] (.mk .decValue "65" 0 0 []) = .ok ("65", ⟨[], []⟩) ∧
    toStr ⟨[], []⟩ [] (.mk .binValue "1000001" 0 0 []) =
      .ok ("65", ⟨[], []⟩) ∧
    toStr ⟨[], []⟩ [] (.mk .hexType "" 0 0 [.mk .hexValue "30" 1 2 [],
        .mk .hexRange "" 3 4 [.mk .hexValue "39" 5 6 []]]) =
      .ok ("tao::pegtl::range< 0x30, 0x39 >", ⟨[], []⟩) ∧
    toStr ⟨[], []⟩ [] (.mk .hexType "" 0 0
        (["61", "62", "63"].map (fun s => .mk .hexValue s 0 0 []))) =
      .ok ("tao::pegtl::string< 0x61, 0x62, 0x63 >", ⟨[], []⟩) := by
  have h := c8_numeric_value_emission ⟨[], []⟩ [] "" 0 0 1 2 3 4
    "41" "61" "62"
  refine ⟨(c8_numeric_value_emission ⟨[], []⟩ [] "" 0 0 1 2 3 4
      "41" "30" "39").1, ?_, ?_, ?_, ?_⟩
  · exact ((c8_numeric_value_emission ⟨[], []⟩ [] "" 0 0 1 2 3 4
      "65" "30" "39").2.1).trans (by rfl)
  · exact ((c8_numeric_value_emission ⟨[], []⟩ [] "" 0 0 1 2 3 4
      "1000001" "30" "39").2.2.1).trans (by rfl)
  · exact ((c8_numeric_value_emission ⟨[], []⟩ [] "" 0 0 1 2 3 4
      "41" "30" "39").2.2.2.1).trans (by rfl)
  · exact ((h.2.2.2.2.2.2.2) ["63"]).trans (by rfl)

end Abnf2Pegtl
